import Mathlib

/-!
# Rewarding protocol and gas station of iotex-core

A shallow embedding of `action/protocol/rewarding/protocol.go` (action dispatch,
receipt construction, nonce bookkeeping, state addressing) and of the gas
station exercised by `gasstation/gasstattion_test.go`.

Go values are embedded as follows.

* `uint64` values (nonces, gas, receipt status) are natural numbers; the code
  only compares and copies them, it never does arithmetic on them.
* `*big.Int` amounts are integers.
* A byte slice is a list of bytes; `append(a, b...)` is list concatenation.
* `context.Context` is reduced to the one value the protocol reads from it, the
  optional run-actions context.
* A Go method that mutates the state manager and returns an error is a function
  returning the new state manager together with the optional error.
* A Go panic is the `Except.error` result of the outer `Except String`.
-/

namespace Rewarding

/-! ## Data model -/

abbrev Bytes := List (Fin 256)

/-- Encoded form of an address, the string `addr.String()` the account ledger is keyed by. -/
abbrev Address := String

abbrev Error := String

/-- Account record of the ledger; only the nonce is read and written by this protocol. -/
structure Account where
  Nonce : Nat
  Balance : Int
  deriving DecidableEq

/-- Modelled from the spec: the state manager (`protocol.StateManager`, declared outside
this package).  It holds the account ledger, keyed by encoded address, and the keyed
state store, keyed by 160-bit hashes.  Each operation may fail; the failures the store
would report are part of the state (`none` means that the operation succeeds). -/
structure StateManager where
  accounts : Address → Option Account
  accountLoadErr : Address → Option Error
  accountStoreErr : Address → Option Error
  states : Bytes → Option Bytes
  stateErr : Bytes → Option Error
  putStateErr : Bytes → Option Error
  delStateErr : Bytes → Option Error

/-- Error of the store for a key that holds no value. -/
def ErrStateNotExist : Error := "state does not exist"

/-- Modelled from the spec: `Get(key) -> value | NotFound` of the state accessor. -/
def StateManager.State (sm : StateManager) (keyHash : Bytes) : Except Error Bytes :=
  match sm.stateErr keyHash with
  | some e => .error e
  | none =>
    match sm.states keyHash with
    | some v => .ok v
    | none => .error ErrStateNotExist

/-- Modelled from the spec: `Put(key, value) -> ok | error` of the state accessor. -/
def StateManager.PutState (sm : StateManager) (keyHash : Bytes) (value : Bytes) :
    StateManager × Option Error :=
  match sm.putStateErr keyHash with
  | some e => (sm, some e)
  | none => ({ sm with states := fun k => if k = keyHash then some value else sm.states k }, none)

/-- Modelled from the spec: `Delete(key) -> ok | error` of the state accessor. -/
def StateManager.DelState (sm : StateManager) (keyHash : Bytes) : StateManager × Option Error :=
  match sm.delStateErr keyHash with
  | some e => (sm, some e)
  | none => ({ sm with states := fun k => if k = keyHash then none else sm.states k }, none)

/-- Modelled from the spec: `LoadOrCreate(address, defaultBalance) -> account` of the account
ledger (`account.LoadOrCreateAccount`, outside this package).  An existing record is
returned as it is; a missing one is created with nonce zero and the given balance and
written to the ledger.  A failure of the underlying store is returned as an error. -/
def LoadOrCreateAccount (sm : StateManager) (addr : Address) (init : Int) :
    StateManager × Except Error Account :=
  match sm.accountLoadErr addr with
  | some e => (sm, .error e)
  | none =>
    match sm.accounts addr with
    | some acc => (sm, .ok acc)
    | none =>
      match sm.accountStoreErr addr with
      | some e => (sm, .error e)
      | none =>
        let acc : Account := { Nonce := 0, Balance := init }
        ({ sm with accounts := fun a => if a = addr then some acc else sm.accounts a }, .ok acc)

/-- Modelled from the spec: `Store(address, account) -> ok | error` of the account ledger
(`account.StoreAccount`, outside this package). -/
def StoreAccount (sm : StateManager) (addr : Address) (acc : Account) :
    StateManager × Option Error :=
  match sm.accountStoreErr addr with
  | some e => (sm, some e)
  | none => ({ sm with accounts := fun a => if a = addr then some acc else sm.accounts a }, none)

/-- Run-actions context (`protocol.RunActionsCtx`): the fields `settleAction` reads. -/
structure RunActionsCtx where
  Caller : Address
  Nonce : Nat
  ActionHash : Bytes
  deriving DecidableEq

/-- The Go context, reduced to the run-actions context it may carry. -/
abbrev Context := Option RunActionsCtx

/-- Lookup `protocol.GetRunActionsCtx(ctx)`: the context and whether it is present. -/
def GetRunActionsCtx (ctx : Context) : Option RunActionsCtx := ctx

/-- Receipt (`action.Receipt`) with the six fields `createReceipt` fills in. -/
structure Receipt where
  ReturnValue : Option Bytes
  Status : Nat
  ActHash : Bytes
  GasConsumed : Nat
  ContractAddress : String
  Logs : List Bytes
  deriving DecidableEq

/-- Modelled from the spec: the reward kind `Block` (`action.BlockReward`, first value of an
enumeration declared outside this package). -/
def BlockReward : Int := 0

/-- Modelled from the spec: the reward kind `Epoch` (`action.EpochReward`, second value of
the same enumeration). -/
def EpochReward : Int := 1

/-- Actions seen by `Handle`: the four types of its type switch, with the values it reads
from them, and every other action type. -/
inductive Action where
  | SetReward (rewardType : Int) (amount : Int)
  | DepositToRewardingFund (amount : Int)
  | ClaimFromRewardingFund (amount : Int)
  | GrantReward (rewardType : Int)
  | Other (tag : Nat)
  deriving DecidableEq

/-- The protocol instance: the key prefix of its state and its own address. -/
structure Protocol where
  keyPrefix : Bytes
  addr : Address
  deriving DecidableEq

/-- Operations `Handle` calls that are defined outside `protocol.go`: the intrinsic gas of an
action and the six effects.  An effect receives the protocol, the context and the state
manager (and the amount where it has one) and returns the state manager it leaves behind
and its error, if any. -/
structure External where
  IntrinsicGas : Action → Except Error Nat
  SetBlockReward : Protocol → Context → StateManager → Int → StateManager × Option Error
  SetEpochReward : Protocol → Context → StateManager → Int → StateManager × Option Error
  Deposit : Protocol → Context → StateManager → Int → StateManager × Option Error
  Claim : Protocol → Context → StateManager → Int → StateManager × Option Error
  GrantBlockReward : Protocol → Context → StateManager → StateManager × Option Error
  GrantEpochReward : Protocol → Context → StateManager → StateManager × Option Error

/-! ## protocol.go -/

/-- Bytes of the protocol identifier `"rewarding"`. -/
def ProtocolID : Bytes := [114, 101, 119, 97, 114, 100, 105, 110, 103]

/-- Bytes of `"admin"`. -/
def adminKey : Bytes := [97, 100, 109, 105, 110]

/-- Bytes of `"fund"`. -/
def fundKey : Bytes := [102, 117, 110, 100]

/-- Bytes of `"blockRewardHistory"`. -/
def blockRewardHistoryKeyPrefix : Bytes :=
  [98, 108, 111, 99, 107, 82, 101, 119, 97, 114, 100, 72, 105, 115, 116, 111, 114, 121]

/-- Bytes of `"epochRewardHistory"`. -/
def epochRewardHistoryKeyPrefix : Bytes :=
  [101, 112, 111, 99, 104, 82, 101, 119, 97, 114, 100, 72, 105, 115, 116, 111, 114, 121]

/-- Bytes of `"account"`. -/
def accountKeyPrefix : Bytes := [97, 99, 99, 111, 117, 110, 116]

/-- Constructor `NewProtocol`: the prefix is the hash of the identifier, the address is built
from the same bytes, and a failure to build it is a panic. -/
def NewProtocol (Hash160b : Bytes → Bytes) (FromBytes : Bytes → Except Error Address) :
    Except String Protocol :=
  let h := Hash160b ProtocolID
  match FromBytes h with
  | .error _ => .error "Error when constructing the address of rewarding protocol"
  | .ok addr => .ok { keyPrefix := h, addr := addr }

def Protocol.state (Hash160b : Bytes → Bytes) (p : Protocol) (sm : StateManager) (key : Bytes) :
    Except Error Bytes :=
  let keyHash := Hash160b (p.keyPrefix ++ key)
  sm.State keyHash

def Protocol.putState (Hash160b : Bytes → Bytes) (p : Protocol) (sm : StateManager)
    (key : Bytes) (value : Bytes) : StateManager × Option Error :=
  let keyHash := Hash160b (p.keyPrefix ++ key)
  sm.PutState keyHash value

def Protocol.deleteState (Hash160b : Bytes → Bytes) (p : Protocol) (sm : StateManager)
    (key : Bytes) : StateManager × Option Error :=
  let keyHash := Hash160b (p.keyPrefix ++ key)
  sm.DelState keyHash

/-- The key `state`, `putState` and `deleteState` derive from a logical key. -/
def Protocol.keyHash (Hash160b : Bytes → Bytes) (p : Protocol) (key : Bytes) : Bytes :=
  Hash160b (p.keyPrefix ++ key)

def Protocol.createReceipt (p : Protocol) (status : Nat) (actHash : Bytes) (gasConsumed : Nat) :
    Receipt :=
  let _ := status
  { ReturnValue := none
    Status := 0
    ActHash := actHash
    GasConsumed := gasConsumed
    ContractAddress := p.addr
    Logs := [] }

def Protocol.increaseNonce (_p : Protocol) (sm : StateManager) (addr : Address) (nonce : Nat) :
    StateManager × Option Error :=
  match LoadOrCreateAccount sm addr 0 with
  | (sm1, .error err) => (sm1, some err)
  | (sm1, .ok acc) =>
    let acc1 : Account := if nonce > acc.Nonce then { acc with Nonce := nonce } else acc
    match StoreAccount sm1 addr acc1 with
    | (sm2, some err) => (sm2, some err)
    | (sm2, none) => (sm2, none)

/-- Function `settleAction`: a missing run-actions context is a panic; otherwise the nonce
is finalised and the receipt is created, with status `1` when finalisation failed. -/
def Protocol.settleAction (p : Protocol) (ctx : Context) (sm : StateManager) (status : Nat)
    (gasConsumed : Nat) : Except String (Receipt × StateManager) :=
  match GetRunActionsCtx ctx with
  | none => .error "Miss run action context"
  | some raCtx =>
    match p.increaseNonce sm raCtx.Caller raCtx.Nonce with
    | (sm1, some _) => .ok (p.createReceipt 1 raCtx.ActionHash gasConsumed, sm1)
    | (sm1, none) => .ok (p.createReceipt status raCtx.ActionHash gasConsumed, sm1)

/-- What a call of `Handle` that returns leaves behind: the receipt (or nil), the error (or
nil) and the state manager. -/
structure HandleResult where
  receipt : Option Receipt
  err : Option Error
  sm : StateManager

/-- The statement `return p.settleAction(ctx, sm, status, gasConsumed), nil`. -/
def Protocol.returnSettled (p : Protocol) (ctx : Context) (sm : StateManager) (status : Nat)
    (gasConsumed : Nat) : Except String HandleResult :=
  match p.settleAction ctx sm status gasConsumed with
  | .error msg => .error msg
  | .ok (r, sm1) => .ok { receipt := some r, err := none, sm := sm1 }

def Protocol.Handle (ext : External) (p : Protocol) (ctx : Context) (act : Action)
    (sm : StateManager) : Except String HandleResult :=
  match act with
  | .SetReward rewardType amount =>
    if rewardType = BlockReward then
      match ext.IntrinsicGas act with
      | .error _ => p.returnSettled ctx sm 1 0
      | .ok gasConsumed =>
        match ext.SetBlockReward p ctx sm amount with
        | (sm1, some _) => p.returnSettled ctx sm1 1 gasConsumed
        | (sm1, none) => p.returnSettled ctx sm1 0 gasConsumed
    else if rewardType = EpochReward then
      match ext.IntrinsicGas act with
      | .error _ => p.returnSettled ctx sm 1 0
      | .ok gasConsumed =>
        match ext.SetEpochReward p ctx sm amount with
        | (sm1, some _) => p.returnSettled ctx sm1 1 gasConsumed
        | (sm1, none) => p.returnSettled ctx sm1 0 gasConsumed
    else .ok { receipt := none, err := none, sm := sm }
  | .DepositToRewardingFund amount =>
    match ext.IntrinsicGas act with
    | .error _ => p.returnSettled ctx sm 1 0
    | .ok gasConsumed =>
      match ext.Deposit p ctx sm amount with
      | (sm1, some _) => p.returnSettled ctx sm1 1 gasConsumed
      | (sm1, none) => p.returnSettled ctx sm1 0 gasConsumed
  | .ClaimFromRewardingFund amount =>
    match ext.IntrinsicGas act with
    | .error _ => p.returnSettled ctx sm 1 0
    | .ok gasConsumed =>
      match ext.Claim p ctx sm amount with
      | (sm1, some _) => p.returnSettled ctx sm1 1 gasConsumed
      | (sm1, none) => p.returnSettled ctx sm1 0 gasConsumed
  | .GrantReward rewardType =>
    if rewardType = BlockReward then
      match ext.IntrinsicGas act with
      | .error _ => p.returnSettled ctx sm 1 0
      | .ok gasConsumed =>
        match ext.GrantBlockReward p ctx sm with
        | (sm1, some _) => p.returnSettled ctx sm1 1 gasConsumed
        | (sm1, none) => p.returnSettled ctx sm1 0 gasConsumed
    else if rewardType = EpochReward then
      match ext.IntrinsicGas act with
      | .error _ => p.returnSettled ctx sm 1 0
      | .ok gasConsumed =>
        match ext.GrantEpochReward p ctx sm with
        | (sm1, some _) => p.returnSettled ctx sm1 1 gasConsumed
        | (sm1, none) => p.returnSettled ctx sm1 0 gasConsumed
    else .ok { receipt := none, err := none, sm := sm }
  | .Other _ => .ok { receipt := none, err := none, sm := sm }

/-- Function `Validate`: accepts every action. -/
def Protocol.Validate (_p : Protocol) (_ctx : Context) (_act : Action) : Option Error := none

/-! ## Notions used to state the properties -/

/-- The actions `Handle` has a branch for: `SetReward` and `GrantReward` of kind block or
epoch, `DepositToRewardingFund` and `ClaimFromRewardingFund`. -/
def Action.recognized : Action → Bool
  | .SetReward rewardType _ => decide (rewardType = BlockReward ∨ rewardType = EpochReward)
  | .DepositToRewardingFund _ => true
  | .ClaimFromRewardingFund _ => true
  | .GrantReward rewardType => decide (rewardType = BlockReward ∨ rewardType = EpochReward)
  | .Other _ => false

/-- The effect operation that belongs to an action, applied to a state manager. -/
def External.effect (ext : External) (p : Protocol) (ctx : Context) (act : Action)
    (sm : StateManager) : StateManager × Option Error :=
  match act with
  | .SetReward rewardType amount =>
    if rewardType = BlockReward then ext.SetBlockReward p ctx sm amount
    else ext.SetEpochReward p ctx sm amount
  | .DepositToRewardingFund amount => ext.Deposit p ctx sm amount
  | .ClaimFromRewardingFund amount => ext.Claim p ctx sm amount
  | .GrantReward rewardType =>
    if rewardType = BlockReward then ext.GrantBlockReward p ctx sm
    else ext.GrantEpochReward p ctx sm
  | .Other _ => (sm, none)

/-- What a recognised action hands to `settleAction`: the state manager at the moment of
nonce finalisation, the status and the gas consumed. -/
def Protocol.settleInput (ext : External) (p : Protocol) (ctx : Context) (act : Action)
    (sm : StateManager) : StateManager × Nat × Nat :=
  match ext.IntrinsicGas act with
  | .error _ => (sm, 1, 0)
  | .ok gasConsumed =>
    match ext.effect p ctx act sm with
    | (sm1, some _) => (sm1, 1, gasConsumed)
    | (sm1, none) => (sm1, 0, gasConsumed)

/-- Status value `Handle` hands to `settleAction` on its failing paths. -/
def FailureStatus : Nat := 1

/-- Status value `Handle` hands to `settleAction` after an effect without error. -/
def SuccessStatus : Nat := 0

/-- Nonce the ledger holds for an address; an address without a record has nonce zero, the
nonce `LoadOrCreateAccount` gives a new record. -/
def StateManager.storedNonce (sm : StateManager) (addr : Address) : Nat :=
  match sm.accounts addr with
  | some acc => acc.Nonce
  | none => 0

/-- The driver's loop over the actions of one caller sequence: each action, with its
run-actions context, is handed to `Handle` on the state manager the previous one left. -/
def Protocol.HandleAll (ext : External) (p : Protocol) :
    StateManager → List (RunActionsCtx × Action) → Except String StateManager
  | sm, [] => .ok sm
  | sm, (raCtx, act) :: rest =>
    match p.Handle ext (some raCtx) act sm with
    | .error msg => .error msg
    | .ok res => Protocol.HandleAll ext p res.sm rest

/-- Account load and store succeed at the nonce finalisation of every action of the
sequence. -/
def Protocol.finalisesAll (ext : External) (p : Protocol) :
    StateManager → List (RunActionsCtx × Action) → Prop
  | _, [] => True
  | sm, (raCtx, act) :: rest =>
    (p.increaseNonce (p.settleInput ext (some raCtx) act sm).1 raCtx.Caller raCtx.Nonce).2 = none ∧
    match p.Handle ext (some raCtx) act sm with
    | .error _ => False
    | .ok res => Protocol.finalisesAll ext p res.sm rest

/-- No effect operation changes the nonce the ledger holds for the address. -/
def External.keepsNonce (ext : External) (addr : Address) : Prop :=
  ∀ (p : Protocol) (ctx : Context) (act : Action) (sm : StateManager),
    (ext.effect p ctx act sm).1.storedNonce addr = sm.storedNonce addr

/-- Largest nonce declared in a sequence of actions. -/
def maxDeclaredNonce (steps : List (RunActionsCtx × Action)) : Nat :=
  (steps.map fun s => s.1.Nonce).foldr max 0

/-! ## Concrete inputs -/

/-- A state manager with an empty ledger, an empty store and no failing operation. -/
def emptyStateManager : StateManager where
  accounts := fun _ => none
  accountLoadErr := fun _ => none
  accountStoreErr := fun _ => none
  states := fun _ => none
  stateErr := fun _ => none
  putStateErr := fun _ => none
  delStateErr := fun _ => none

/-- A ledger that holds one account and is otherwise empty. -/
def ledgerWith (addr : Address) (acc : Account) : StateManager :=
  { emptyStateManager with accounts := fun a => if a = addr then some acc else none }

/-- A state manager whose ledger refuses to store the account of one address. -/
def storeFailsFor (addr : Address) : StateManager :=
  { emptyStateManager with
    accountStoreErr := fun a => if a = addr then some "store failed" else none }

/-- Outside operations that leave the state manager as it is: the intrinsic gas is the given
result for every action, every effect returns the given error. -/
def constExternal (gas : Except Error Nat) (effectErr : Option Error) : External where
  IntrinsicGas := fun _ => gas
  SetBlockReward := fun _ _ sm _ => (sm, effectErr)
  SetEpochReward := fun _ _ sm _ => (sm, effectErr)
  Deposit := fun _ _ sm _ => (sm, effectErr)
  Claim := fun _ _ sm _ => (sm, effectErr)
  GrantBlockReward := fun _ _ sm => (sm, effectErr)
  GrantEpochReward := fun _ _ sm => (sm, effectErr)

def sampleProtocol : Protocol := { keyPrefix := List.replicate 20 7, addr := "io1rewarding" }

def otherProtocol : Protocol := { keyPrefix := List.replicate 20 9, addr := "io1other" }

def aliceCtx (nonce : Nat) : RunActionsCtx :=
  { Caller := "io1alice", Nonce := nonce, ActionHash := [1, 2, 3] }

/-- One deposit by a caller that declares the nonce 5. -/
def staleSteps : List (RunActionsCtx × Action) :=
  [(aliceCtx 5, .DepositToRewardingFund 1)]

/-- Four actions of one caller with the declared nonces 1, 2, 2 and 4. -/
def sampleSteps : List (RunActionsCtx × Action) :=
  [(aliceCtx 1, .DepositToRewardingFund 1), (aliceCtx 2, .ClaimFromRewardingFund 1),
   (aliceCtx 2, .GrantReward BlockReward), (aliceCtx 4, .SetReward EpochReward 3)]

/-- Receipt and error of a call of `Handle`, without the state manager. -/
def returned (r : Except String HandleResult) : Option (Option Receipt × Option Error) :=
  match r with
  | .error _ => none
  | .ok res => some (res.receipt, res.err)

/-- Nonce stored for an address after a call or a run that returns. -/
def nonceAfter (r : Except String StateManager) (addr : Address) : Option Nat :=
  match r with
  | .error _ => none
  | .ok sm => some (sm.storedNonce addr)

end Rewarding

/-! ## Gas station -/

namespace GasStation

/-- Configuration options the gas station recognises. -/
structure Config where
  DefaultGas : Nat
  SuggestBlockWindow : Nat
  Percentile : Nat
  BaseIntrinsicGas : Nat
  PerByteGas : Nat
  deriving DecidableEq

/-- An action of a committed block: whether the system injected it, and its gas price. -/
structure BlockAction where
  isSystem : Bool
  GasPrice : Nat
  deriving DecidableEq

abbrev Block := List BlockAction

/-- The trailing window: the most recently committed blocks, the tip first.  The chain is
listed from the oldest block to the tip. -/
def recentBlocks (windowSize : Nat) (chain : List Block) : List Block :=
  chain.reverse.take windowSize

/-- Gas prices declared by the user-submitted actions of a window. -/
def userPrices (window : List Block) : List Nat :=
  (window.flatten.filter fun a => !a.isSystem).map fun a => a.GasPrice

/-- Rank of the percentile among `len` sorted prices when the percentile share of the last
index is rounded down, the reading `⌊min + 0.6 * (max - min)⌋` of the spec. -/
def rankDown (len percentile : Nat) : Nat :=
  (len - 1) * percentile / 100

/-- Rank of the percentile among `len` sorted prices when the percentile share of the last
index is rounded to the nearest integer, the reading `lo + round (0.6 * (N - 1))` of the
spec. -/
def rankNearest (len percentile : Nat) : Nat :=
  ((len - 1) * percentile + 50) / 100

/-- A rank rule is admissible when it lies between the two readings of the spec. -/
def AdmissibleRank (rank : Nat → Nat → Nat) : Prop :=
  ∀ len percentile,
    rankDown len percentile ≤ rank len percentile ∧
      rank len percentile ≤ rankNearest len percentile

/-- Modelled from the spec: `SuggestGasPrice` of the gas station, whose source file is not
part of the sources at hand.  The prices of the user actions of the trailing window are
sorted ascending and the value at the percentile rank is returned; without any user action
the default gas price is returned.  The spec does not fix how the percentile becomes a rank
(it gives a rounded-down and a rounded-to-nearest formula), so the rank rule is a
parameter: it maps the number of prices and the percentile to an index. -/
def SuggestGasPrice (rank : Nat → Nat → Nat) (cfg : Config) (chain : List Block) : Nat :=
  let sorted := (userPrices (recentBlocks cfg.SuggestBlockWindow chain)).insertionSort (· ≤ ·)
  match sorted with
  | [] => cfg.DefaultGas
  | lowest :: _ => sorted.getD (rank sorted.length cfg.Percentile) lowest

/-- An unsigned action as the estimator sees it. -/
structure UnsignedAction where
  Recipient : String
  Payload : List (Fin 256)
  Nonce : Nat
  deriving DecidableEq

/-- Modelled from the spec: `EstimateGasForAction` of the gas station, whose source file is
not part of the sources at hand: the base intrinsic gas plus the payload length times the
gas per byte. -/
def EstimateGasForAction (cfg : Config) (act : UnsignedAction) : Except String Nat :=
  .ok (cfg.BaseIntrinsicGas + act.Payload.length * cfg.PerByteGas)

/-- Test helper `getAction`: a transfer without payload. -/
def getAction : UnsignedAction := { Recipient := "address29", Payload := [], Nonce := 101 }

/-- Test helper `getActionWithPayload`: a transfer with the payload `"1234567890"`. -/
def getActionWithPayload : UnsignedAction :=
  { Recipient := "address29", Payload := [49, 50, 51, 52, 53, 54, 55, 56, 57, 48], Nonce := 101 }

/-- Configuration of the tests: window of twenty blocks, percentile sixty, base intrinsic
gas 10000; the default gas price and the gas per byte of data are left open. -/
def testConfig (defaultGas executionDataGas : Nat) : Config :=
  { DefaultGas := defaultGas
    SuggestBlockWindow := 20
    Percentile := 60
    BaseIntrinsicGas := 10000
    PerByteGas := executionDataGas }

/-- Chain of `TestSuggestGasPriceForUserAction`: thirty blocks, block `i` holding one
transfer of gas price `(i + 10)` units and the reward action the system adds. -/
def userActionChain (unit : Nat) : List Block :=
  (List.range 30).map fun i =>
    [{ isSystem := false, GasPrice := (i + 10) * unit }, { isSystem := true, GasPrice := 0 }]

/-- Chain of `TestSuggestGasPriceForSystemAction`: thirty blocks that hold the system's
reward action only. -/
def systemActionChain : List Block :=
  (List.range 30).map fun _ => [{ isSystem := true, GasPrice := 0 }]

/-- Chain with two blocks, one user action each, of gas prices 20 and 21. -/
def twoPriceChain : List Block :=
  [[{ isSystem := false, GasPrice := 20 }], [{ isSystem := false, GasPrice := 21 }]]

/-- Chain with three blocks, one user action each, of gas prices 20, 21 and 22. -/
def threePriceChain : List Block :=
  [[{ isSystem := false, GasPrice := 20 }], [{ isSystem := false, GasPrice := 21 }],
   [{ isSystem := false, GasPrice := 22 }]]

end GasStation

/-! # Theorems -/

namespace Rewarding

/-! ## Structure of `Handle` -/

theorem Handle_recognized (ext : External) (p : Protocol) (ctx : Context) (act : Action)
    (sm : StateManager) (hrec : act.recognized = true) :
    p.Handle ext ctx act sm =
      p.returnSettled ctx (p.settleInput ext ctx act sm).1 (p.settleInput ext ctx act sm).2.1
        (p.settleInput ext ctx act sm).2.2 := by
  cases act with
  | SetReward rt amount =>
    simp only [Action.recognized, decide_eq_true_eq] at hrec
    by_cases hb : rt = BlockReward
    · simp only [Protocol.Handle, Protocol.settleInput, External.effect, hb, if_true]
      cases ext.IntrinsicGas (Action.SetReward BlockReward amount) with
      | error e => rfl
      | ok g =>
        rcases h : ext.SetBlockReward p ctx sm amount with ⟨sm1, _ | e⟩ <;> rfl
    · have he : rt = EpochReward := by tauto
      simp only [Protocol.Handle, Protocol.settleInput, External.effect, hb, he, if_true,
        if_false]
      cases ext.IntrinsicGas (Action.SetReward EpochReward amount) with
      | error e => rfl
      | ok g =>
        rcases h : ext.SetEpochReward p ctx sm amount with ⟨sm1, _ | e⟩ <;> simp [BlockReward, EpochReward]
  | DepositToRewardingFund amount =>
    simp only [Protocol.Handle, Protocol.settleInput, External.effect]
    cases ext.IntrinsicGas (Action.DepositToRewardingFund amount) with
    | error e => rfl
    | ok g => rcases h : ext.Deposit p ctx sm amount with ⟨sm1, _ | e⟩ <;> rfl
  | ClaimFromRewardingFund amount =>
    simp only [Protocol.Handle, Protocol.settleInput, External.effect]
    cases ext.IntrinsicGas (Action.ClaimFromRewardingFund amount) with
    | error e => rfl
    | ok g => rcases h : ext.Claim p ctx sm amount with ⟨sm1, _ | e⟩ <;> rfl
  | GrantReward rt =>
    simp only [Action.recognized, decide_eq_true_eq] at hrec
    by_cases hb : rt = BlockReward
    · simp only [Protocol.Handle, Protocol.settleInput, External.effect, hb, if_true]
      cases ext.IntrinsicGas (Action.GrantReward BlockReward) with
      | error e => rfl
      | ok g =>
        rcases h : ext.GrantBlockReward p ctx sm with ⟨sm1, _ | e⟩ <;> rfl
    · have he : rt = EpochReward := by tauto
      simp only [Protocol.Handle, Protocol.settleInput, External.effect, hb, he, if_true,
        if_false]
      cases ext.IntrinsicGas (Action.GrantReward EpochReward) with
      | error e => rfl
      | ok g =>
        rcases h : ext.GrantEpochReward p ctx sm with ⟨sm1, _ | e⟩ <;> simp [BlockReward, EpochReward]
  | Other tag => simp [Action.recognized] at hrec

theorem Handle_unrecognized (ext : External) (p : Protocol) (ctx : Context) (act : Action)
    (sm : StateManager) (hrec : act.recognized = false) :
    p.Handle ext ctx act sm = .ok { receipt := none, err := none, sm := sm } := by
  cases act with
  | SetReward rt amount =>
    simp only [Action.recognized, decide_eq_false_iff_not, not_or] at hrec
    simp [Protocol.Handle, hrec.1, hrec.2]
  | DepositToRewardingFund amount => simp [Action.recognized] at hrec
  | ClaimFromRewardingFund amount => simp [Action.recognized] at hrec
  | GrantReward rt =>
    simp only [Action.recognized, decide_eq_false_iff_not, not_or] at hrec
    simp [Protocol.Handle, hrec.1, hrec.2]
  | Other tag => rfl

/-! ## Receipt construction and nonce finalisation -/

theorem createReceipt_eq (p : Protocol) (status : Nat) (actHash : Bytes) (gasConsumed : Nat) :
    p.createReceipt status actHash gasConsumed =
      { ReturnValue := none, Status := 0, ActHash := actHash, GasConsumed := gasConsumed,
        ContractAddress := p.addr, Logs := [] } := rfl

theorem returnSettled_some (p : Protocol) (raCtx : RunActionsCtx) (sm : StateManager)
    (status gasConsumed : Nat) :
    ∃ r, p.returnSettled (some raCtx) sm status gasConsumed =
        .ok { receipt := some r, err := none,
              sm := (p.increaseNonce sm raCtx.Caller raCtx.Nonce).1 } ∧
      r.GasConsumed = gasConsumed ∧ r.Status = 0 := by
  simp only [Protocol.returnSettled, Protocol.settleAction, GetRunActionsCtx]
  rcases h : p.increaseNonce sm raCtx.Caller raCtx.Nonce with ⟨sm1, _ | e⟩
  · exact ⟨p.createReceipt status raCtx.ActionHash gasConsumed, rfl, rfl, rfl⟩
  · exact ⟨p.createReceipt 1 raCtx.ActionHash gasConsumed, rfl, rfl, rfl⟩

theorem Handle_receipt_status (ext : External) (p : Protocol) (ctx : Context) (act : Action)
    (sm : StateManager) (res : HandleResult) (r : Receipt)
    (hres : p.Handle ext ctx act sm = .ok res) (hr : res.receipt = some r) : r.Status = 0 := by
  cases hrec : act.recognized with
  | false =>
    rw [Handle_unrecognized ext p ctx act sm hrec] at hres
    simp only [Except.ok.injEq] at hres
    rw [← hres] at hr
    simp at hr
  | true =>
    rw [Handle_recognized ext p ctx act sm hrec] at hres
    cases ctx with
    | none => simp [Protocol.returnSettled, Protocol.settleAction, GetRunActionsCtx] at hres
    | some raCtx =>
      obtain ⟨r1, hr1, -, hstatus⟩ := returnSettled_some p raCtx
        (p.settleInput ext (some raCtx) act sm).1 (p.settleInput ext (some raCtx) act sm).2.1
        (p.settleInput ext (some raCtx) act sm).2.2
      rw [hr1] at hres
      simp only [Except.ok.injEq] at hres
      rw [← hres] at hr
      simp only [Option.some.injEq] at hr
      rw [← hr]
      exact hstatus

theorem bumped_account_eq (acc : Account) (nonce : Nat) :
    (if nonce > acc.Nonce then { acc with Nonce := nonce } else acc) =
      { acc with Nonce := max acc.Nonce nonce } := by
  by_cases h : nonce > acc.Nonce
  · rw [if_pos h, max_eq_right (le_of_lt h)]
  · rw [if_neg h, max_eq_left (not_lt.mp h)]

theorem increaseNonce_loaded (p : Protocol) (sm sm1 : StateManager) (addr : Address)
    (nonce : Nat) (acc : Account) (hload : LoadOrCreateAccount sm addr 0 = (sm1, .ok acc))
    (hstore : (StoreAccount sm1 addr { acc with Nonce := max acc.Nonce nonce }).2 = none) :
    (p.increaseNonce sm addr nonce).1.accounts addr =
      some { acc with Nonce := max acc.Nonce nonce } := by
  unfold Protocol.increaseNonce
  rw [hload]
  simp only [bumped_account_eq]
  unfold StoreAccount at hstore ⊢
  cases h : sm1.accountStoreErr addr with
  | some e => simp [h] at hstore
  | none => simp

theorem loaded_nonce_eq (sm sm1 : StateManager) (addr : Address) (init : Int) (acc : Account)
    (hload : LoadOrCreateAccount sm addr init = (sm1, .ok acc)) :
    acc.Nonce = sm.storedNonce addr := by
  unfold LoadOrCreateAccount at hload
  unfold StateManager.storedNonce
  cases h1 : sm.accountLoadErr addr with
  | some e => simp [h1] at hload
  | none =>
    cases h2 : sm.accounts addr with
    | some a =>
      simp only [h1, h2, Prod.mk.injEq, Except.ok.injEq] at hload
      rw [← hload.2]
    | none =>
      cases h3 : sm.accountStoreErr addr with
      | some e => simp [h1, h2, h3] at hload
      | none =>
        simp only [h1, h2, h3, Prod.mk.injEq, Except.ok.injEq] at hload
        rw [← hload.2]

theorem increaseNonce_storedNonce (p : Protocol) (sm : StateManager) (addr : Address)
    (nonce : Nat) (hok : (p.increaseNonce sm addr nonce).2 = none) :
    (p.increaseNonce sm addr nonce).1.storedNonce addr = max (sm.storedNonce addr) nonce := by
  rcases hl : LoadOrCreateAccount sm addr 0 with ⟨sm1, e | acc⟩
  · simp [Protocol.increaseNonce, hl] at hok
  · have hst : (StoreAccount sm1 addr { acc with Nonce := max acc.Nonce nonce }).2 = none := by
      unfold Protocol.increaseNonce at hok
      rw [hl] at hok
      simp only [bumped_account_eq] at hok
      rcases hs : StoreAccount sm1 addr { acc with Nonce := max acc.Nonce nonce } with ⟨sm2, _ | e⟩
      · rfl
      · simp [hs] at hok
    have h := increaseNonce_loaded p sm sm1 addr nonce acc hl hst
    have hn := loaded_nonce_eq sm sm1 addr 0 acc hl
    have hmax : (p.increaseNonce sm addr nonce).1.storedNonce addr = max acc.Nonce nonce := by
      simp only [StateManager.storedNonce, h]
    rw [hmax, hn]

theorem settleInput_state (ext : External) (p : Protocol) (ctx : Context) (act : Action)
    (sm : StateManager) :
    (p.settleInput ext ctx act sm).1 = sm ∨
      (p.settleInput ext ctx act sm).1 = (ext.effect p ctx act sm).1 := by
  unfold Protocol.settleInput
  cases ext.IntrinsicGas act with
  | error e => exact Or.inl rfl
  | ok g =>
    rcases h : ext.effect p ctx act sm with ⟨sm1, _ | e⟩
    · exact Or.inr rfl
    · exact Or.inr rfl

theorem Handle_of_gas_error (ext : External) (p : Protocol) (ctx : Context) (act : Action)
    (sm : StateManager) (e : Error) (hrec : act.recognized = true)
    (hg : ext.IntrinsicGas act = .error e) :
    p.Handle ext ctx act sm = p.returnSettled ctx sm 1 0 := by
  rw [Handle_recognized ext p ctx act sm hrec]
  unfold Protocol.settleInput
  rw [hg]

theorem settleInput_gas (ext : External) (p : Protocol) (ctx : Context) (act : Action)
    (sm : StateManager) (g : Nat) (hg : ext.IntrinsicGas act = .ok g) :
    (p.settleInput ext ctx act sm).2.2 = g := by
  unfold Protocol.settleInput
  rw [hg]
  rcases h : ext.effect p ctx act sm with ⟨sm1, _ | e⟩ <;> rfl

/-! ## Properties of `Handle` -/

/-- C1: for a recognised action handled with a run context present, when loading the
caller's account at nonce finalisation returns the account `acc` and storing it succeeds,
the account stored for the caller after `Handle` returns carries the nonce
`max acc.Nonce raCtx.Nonce`, where `acc.Nonce` is the nonce stored for the caller in the
state manager handed to `settleAction`; the external operations are arbitrary, so this
covers a failed intrinsic-gas computation, a failed effect and a successful effect. -/
theorem Handle_stores_max_nonce (ext : External) (p : Protocol) (raCtx : RunActionsCtx)
    (act : Action) (sm sm1 : StateManager) (acc : Account)
    (hrec : act.recognized = true)
    (hload : LoadOrCreateAccount (p.settleInput ext (some raCtx) act sm).1 raCtx.Caller 0 =
      (sm1, .ok acc))
    (hstore : (StoreAccount sm1 raCtx.Caller
      { acc with Nonce := max acc.Nonce raCtx.Nonce }).2 = none) :
    ∃ res, p.Handle ext (some raCtx) act sm = .ok res ∧
      res.sm.accounts raCtx.Caller = some { acc with Nonce := max acc.Nonce raCtx.Nonce } ∧
      acc.Nonce = (p.settleInput ext (some raCtx) act sm).1.storedNonce raCtx.Caller ∧
      res.sm.storedNonce raCtx.Caller =
        max ((p.settleInput ext (some raCtx) act sm).1.storedNonce raCtx.Caller) raCtx.Nonce := by
  obtain ⟨r, hr, -, -⟩ := returnSettled_some p raCtx (p.settleInput ext (some raCtx) act sm).1
    (p.settleInput ext (some raCtx) act sm).2.1 (p.settleInput ext (some raCtx) act sm).2.2
  have hacc := increaseNonce_loaded p _ sm1 raCtx.Caller raCtx.Nonce acc hload hstore
  have hn := loaded_nonce_eq _ sm1 raCtx.Caller 0 acc hload
  refine ⟨_, (Handle_recognized ext p (some raCtx) act sm hrec).trans hr, hacc, hn, ?_⟩
  simp only [StateManager.storedNonce, hacc]
  rw [hn]
  rfl

/-- Witness of C1: a deposit by an account with stored nonce 3, declared nonce 7. -/
theorem Handle_stores_max_nonce_witness :
    ∃ res, sampleProtocol.Handle (constExternal (.ok 5) none) (some (aliceCtx 7))
        (.DepositToRewardingFund 1) (ledgerWith "io1alice" { Nonce := 3, Balance := 0 }) =
          .ok res ∧
      res.sm.accounts "io1alice" = some { Nonce := 7, Balance := 0 } ∧
      3 = (ledgerWith "io1alice" { Nonce := 3, Balance := 0 }).storedNonce "io1alice" ∧
      res.sm.storedNonce "io1alice" = 7 :=
  Handle_stores_max_nonce (constExternal (.ok 5) none) sampleProtocol (aliceCtx 7)
    (.DepositToRewardingFund 1) (ledgerWith "io1alice" { Nonce := 3, Balance := 0 })
    (ledgerWith "io1alice" { Nonce := 3, Balance := 0 }) { Nonce := 3, Balance := 0 }
    rfl rfl rfl

/-- C4: for a recognised action whose intrinsic gas is `g`, `Handle` returns a receipt with
`GasConsumed = g`, for every effect outcome and every outcome of nonce finalisation (the
external operations and the state manager are arbitrary). -/
theorem Handle_gas_consumed (ext : External) (p : Protocol) (raCtx : RunActionsCtx)
    (act : Action) (sm : StateManager) (g : Nat)
    (hrec : act.recognized = true) (hg : ext.IntrinsicGas act = .ok g) :
    ∃ res r, p.Handle ext (some raCtx) act sm = .ok res ∧ res.receipt = some r ∧
      r.GasConsumed = g := by
  obtain ⟨r, hr, hgas, -⟩ := returnSettled_some p raCtx (p.settleInput ext (some raCtx) act sm).1
    (p.settleInput ext (some raCtx) act sm).2.1 (p.settleInput ext (some raCtx) act sm).2.2
  refine ⟨_, r, (Handle_recognized ext p (some raCtx) act sm hrec).trans hr, rfl, ?_⟩
  rw [hgas]
  exact settleInput_gas ext p (some raCtx) act sm g hg

/-- Witness of C4: a claim whose effect fails and whose nonce cannot be stored. -/
theorem Handle_gas_consumed_witness :
    ∃ res r, sampleProtocol.Handle (constExternal (.ok 5) (some "no funds")) (some (aliceCtx 7))
        (.ClaimFromRewardingFund 1) (storeFailsFor "io1alice") = .ok res ∧
      res.receipt = some r ∧ r.GasConsumed = 5 :=
  Handle_gas_consumed (constExternal (.ok 5) (some "no funds")) sampleProtocol (aliceCtx 7)
    (.ClaimFromRewardingFund 1) (storeFailsFor "io1alice") 5 rfl rfl

/-- C6: with a run context present, `Handle` returns for every action and every state, its
error is nil, and it returns a receipt exactly when the action is recognised. -/
theorem Handle_receipt_iff_recognized (ext : External) (p : Protocol) (raCtx : RunActionsCtx)
    (act : Action) (sm : StateManager) :
    ∃ res, p.Handle ext (some raCtx) act sm = .ok res ∧ res.err = none ∧
      res.receipt.isSome = act.recognized := by
  cases hrec : act.recognized with
  | true =>
    obtain ⟨r, hr, -, -⟩ := returnSettled_some p raCtx (p.settleInput ext (some raCtx) act sm).1
      (p.settleInput ext (some raCtx) act sm).2.1 (p.settleInput ext (some raCtx) act sm).2.2
    exact ⟨_, (Handle_recognized ext p (some raCtx) act sm hrec).trans hr, rfl, rfl⟩
  | false => exact ⟨_, Handle_unrecognized ext p (some raCtx) act sm hrec, rfl, rfl⟩

/-- C7: with an injective hash, the key that `state`, `putState` and `deleteState` derive
from a prefix of twenty bytes and a logical key determines both: two derived keys are equal
exactly when the prefixes are equal and the logical keys are equal. -/
theorem keyHash_eq_iff (Hash160b : Bytes → Bytes) (hinj : Function.Injective Hash160b)
    (p1 p2 : Protocol) (k1 k2 : Bytes) (h1 : p1.keyPrefix.length = 20)
    (h2 : p2.keyPrefix.length = 20) :
    (p1.keyHash Hash160b k1 = p2.keyHash Hash160b k2 ↔ p1.keyPrefix = p2.keyPrefix ∧ k1 = k2) ∧
      (∀ sm, p1.state Hash160b sm k1 = sm.State (p1.keyHash Hash160b k1)) ∧
      (∀ sm v, p1.putState Hash160b sm k1 v = sm.PutState (p1.keyHash Hash160b k1) v) ∧
      (∀ sm, p1.deleteState Hash160b sm k1 = sm.DelState (p1.keyHash Hash160b k1)) := by
  refine ⟨⟨fun h => ?_, fun h => ?_⟩, fun _ => rfl, fun _ _ => rfl, fun _ => rfl⟩
  · exact List.append_inj (hinj h) (h1.trans h2.symm)
  · unfold Protocol.keyHash
    rw [h.1, h.2]

/-- Witness of C7: two protocols with different prefixes and the logical key `admin`. -/
theorem keyHash_eq_iff_witness :
    (sampleProtocol.keyHash id adminKey = otherProtocol.keyHash id adminKey ↔
        sampleProtocol.keyPrefix = otherProtocol.keyPrefix ∧ adminKey = adminKey) ∧
      (∀ sm, sampleProtocol.state id sm adminKey = sm.State (sampleProtocol.keyHash id adminKey)) ∧
      (∀ sm v, sampleProtocol.putState id sm adminKey v =
        sm.PutState (sampleProtocol.keyHash id adminKey) v) ∧
      (∀ sm, sampleProtocol.deleteState id sm adminKey =
        sm.DelState (sampleProtocol.keyHash id adminKey)) :=
  keyHash_eq_iff id Function.injective_id sampleProtocol otherProtocol adminKey adminKey
    (by decide) (by decide)

/-! ## The status field of the receipt -/

/-- C2: evaluation of `Handle` on a claim whose effect fails and on the same claim whose
effect succeeds.  `Handle` hands the failure status to `settleAction` in the first call and
the success status in the second, nonce finalisation succeeds in both, and both receipts
carry the status `0`: the receipts do not differ in their status. -/
theorem effect_outcome_not_in_receipt :
    returned (sampleProtocol.Handle (constExternal (.ok 7) (some "insufficient fund"))
        (some (aliceCtx 1)) (.ClaimFromRewardingFund 5) emptyStateManager) =
      some (some { ReturnValue := none, Status := 0, ActHash := [1, 2, 3], GasConsumed := 7,
                   ContractAddress := "io1rewarding", Logs := [] }, none) ∧
    returned (sampleProtocol.Handle (constExternal (.ok 7) none)
        (some (aliceCtx 1)) (.ClaimFromRewardingFund 5) emptyStateManager) =
      some (some { ReturnValue := none, Status := 0, ActHash := [1, 2, 3], GasConsumed := 7,
                   ContractAddress := "io1rewarding", Logs := [] }, none) ∧
    (sampleProtocol.settleInput (constExternal (.ok 7) (some "insufficient fund"))
        (some (aliceCtx 1)) (.ClaimFromRewardingFund 5) emptyStateManager).2.1 = FailureStatus ∧
    (sampleProtocol.settleInput (constExternal (.ok 7) none)
        (some (aliceCtx 1)) (.ClaimFromRewardingFund 5) emptyStateManager).2.1 = SuccessStatus ∧
    FailureStatus ≠ SuccessStatus :=
  ⟨rfl, rfl, rfl, rfl, by decide⟩

/-- C3: evaluation of `Handle` on a deposit whose effect succeeds while the caller's account
cannot be stored.  Nonce finalisation fails, `Handle` returns a nil error and a receipt with
the gas of step 1, and the status of the receipt is `0`, the success status, not the
failure status `settleAction` hands to `createReceipt`. -/
theorem failed_finalisation_receipt :
    (sampleProtocol.increaseNonce (storeFailsFor "io1alice") "io1alice" 4).2 =
      some "store failed" ∧
    returned (sampleProtocol.Handle (constExternal (.ok 9) none) (some (aliceCtx 4))
        (.DepositToRewardingFund 2) (storeFailsFor "io1alice")) =
      some (some { ReturnValue := none, Status := 0, ActHash := [1, 2, 3], GasConsumed := 9,
                   ContractAddress := "io1rewarding", Logs := [] }, none) ∧
    (0 : Nat) = SuccessStatus ∧ (0 : Nat) ≠ FailureStatus :=
  ⟨rfl, rfl, rfl, by decide⟩

/-- C5: evaluation of `Handle` on a block-reward setting whose intrinsic-gas computation
fails.  The receipt has `GasConsumed = 0`, the caller's nonce is finalised (it becomes the
declared nonce 6), the effect is not run (an effect that would fail and one that would
succeed give the same result), and the status of the receipt is `0`, not the failure status
`Handle` hands to `settleAction`. -/
theorem failed_gas_receipt :
    returned (sampleProtocol.Handle (constExternal (.error "out of gas") none)
        (some (aliceCtx 6)) (.SetReward BlockReward 10) emptyStateManager) =
      some (some { ReturnValue := none, Status := 0, ActHash := [1, 2, 3], GasConsumed := 0,
                   ContractAddress := "io1rewarding", Logs := [] }, none) ∧
    returned (sampleProtocol.Handle (constExternal (.error "out of gas") (some "not admin"))
        (some (aliceCtx 6)) (.SetReward BlockReward 10) emptyStateManager) =
      some (some { ReturnValue := none, Status := 0, ActHash := [1, 2, 3], GasConsumed := 0,
                   ContractAddress := "io1rewarding", Logs := [] }, none) ∧
    nonceAfter ((sampleProtocol.Handle (constExternal (.error "out of gas") none)
        (some (aliceCtx 6)) (.SetReward BlockReward 10) emptyStateManager).map fun res => res.sm)
        "io1alice" = some 6 ∧
    (sampleProtocol.settleInput (constExternal (.error "out of gas") none)
        (some (aliceCtx 6)) (.SetReward BlockReward 10) emptyStateManager).2.1 = FailureStatus ∧
    (0 : Nat) ≠ FailureStatus :=
  ⟨rfl, rfl, rfl, rfl, by decide⟩

/-! ## Sequences of actions -/

theorem settleInput_storedNonce (ext : External) (p : Protocol) (ctx : Context) (act : Action)
    (sm : StateManager) (addr : Address) (hkeep : ext.keepsNonce addr) :
    (p.settleInput ext ctx act sm).1.storedNonce addr = sm.storedNonce addr := by
  rcases settleInput_state ext p ctx act sm with h | h
  · rw [h]
  · rw [h]
    exact hkeep p ctx act sm

theorem Handle_step_nonce (ext : External) (p : Protocol) (raCtx : RunActionsCtx)
    (act : Action) (sm : StateManager) (addr : Address) (hrec : act.recognized = true)
    (hcaller : raCtx.Caller = addr)
    (hfin : (p.increaseNonce (p.settleInput ext (some raCtx) act sm).1 raCtx.Caller
      raCtx.Nonce).2 = none)
    (hkeep : ext.keepsNonce addr) :
    ∃ res, p.Handle ext (some raCtx) act sm = .ok res ∧
      res.sm.storedNonce addr = max (sm.storedNonce addr) raCtx.Nonce := by
  obtain ⟨r, hr, -, -⟩ := returnSettled_some p raCtx (p.settleInput ext (some raCtx) act sm).1
    (p.settleInput ext (some raCtx) act sm).2.1 (p.settleInput ext (some raCtx) act sm).2.2
  refine ⟨_, (Handle_recognized ext p (some raCtx) act sm hrec).trans hr, ?_⟩
  have h := increaseNonce_storedNonce p _ raCtx.Caller raCtx.Nonce hfin
  rw [hcaller] at h ⊢
  simp only [h]
  rw [settleInput_storedNonce ext p (some raCtx) act sm addr hkeep]

theorem HandleAll_nonce (ext : External) (p : Protocol) (addr : Address)
    (hkeep : ext.keepsNonce addr) :
    ∀ (steps : List (RunActionsCtx × Action)) (sm : StateManager),
      (∀ s ∈ steps, s.1.Caller = addr) → (∀ s ∈ steps, s.2.recognized = true) →
      p.finalisesAll ext sm steps →
      ∃ smF, p.HandleAll ext sm steps = .ok smF ∧
        smF.storedNonce addr = max (sm.storedNonce addr) (maxDeclaredNonce steps) := by
  intro steps
  induction steps with
  | nil =>
    intro sm _ _ _
    exact ⟨sm, rfl, by simp [maxDeclaredNonce]⟩
  | cons s rest ih =>
    intro sm hcaller hrec hfin
    obtain ⟨raCtx, act⟩ := s
    have hfin1 := hfin.1
    have hfin2 := hfin.2
    obtain ⟨res, hres, hnonce⟩ := Handle_step_nonce ext p raCtx act sm addr
      (hrec (raCtx, act) (List.mem_cons_self _ _)) (hcaller (raCtx, act) (List.mem_cons_self _ _))
      hfin1 hkeep
    simp only [hres] at hfin2
    obtain ⟨smF, hF, hFn⟩ := ih res.sm
      (fun s hs => hcaller s (List.mem_cons_of_mem _ hs))
      (fun s hs => hrec s (List.mem_cons_of_mem _ hs)) hfin2
    refine ⟨smF, ?_, ?_⟩
    · simp only [Protocol.HandleAll, hres]
      exact hF
    · rw [hFn, hnonce]
      simp only [maxDeclaredNonce, List.map_cons, List.foldr_cons]
      rw [max_assoc]

theorem HandleAll_append (ext : External) (p : Protocol) :
    ∀ (l1 l2 : List (RunActionsCtx × Action)) (sm s1 : StateManager),
      p.HandleAll ext sm l1 = .ok s1 →
      p.HandleAll ext sm (l1 ++ l2) = p.HandleAll ext s1 l2 := by
  intro l1
  induction l1 with
  | nil =>
    intro l2 sm s1 h
    simp only [Protocol.HandleAll, Except.ok.injEq] at h
    rw [List.nil_append, h]
  | cons s rest ih =>
    intro l2 sm s1 h
    obtain ⟨raCtx, act⟩ := s
    simp only [Protocol.HandleAll, List.cons_append] at h ⊢
    cases hH : p.Handle ext (some raCtx) act sm with
    | error m => simp [hH] at h
    | ok res =>
      simp only [hH] at h ⊢
      exact ih l2 res.sm s1 h

theorem finalisesAll_append (ext : External) (p : Protocol) :
    ∀ (l1 l2 : List (RunActionsCtx × Action)) (sm : StateManager),
      p.finalisesAll ext sm (l1 ++ l2) →
      p.finalisesAll ext sm l1 ∧
        ∀ s1, p.HandleAll ext sm l1 = .ok s1 → p.finalisesAll ext s1 l2 := by
  intro l1
  induction l1 with
  | nil =>
    intro l2 sm h
    refine ⟨trivial, fun s1 hs => ?_⟩
    simp only [Protocol.HandleAll, Except.ok.injEq] at hs
    rw [← hs]
    exact h
  | cons s rest ih =>
    intro l2 sm h
    obtain ⟨raCtx, act⟩ := s
    simp only [List.cons_append, Protocol.finalisesAll] at h
    cases hH : p.Handle ext (some raCtx) act sm with
    | error m => simp [hH] at h
    | ok res =>
      simp only [hH] at h
      obtain ⟨h1, h2⟩ := ih l2 res.sm h.2
      refine ⟨?_, fun s1 hs => ?_⟩
      · simp only [Protocol.finalisesAll, hH]
        exact ⟨h.1, h1⟩
      · simp only [Protocol.HandleAll, hH] at hs
        exact h2 s1 hs

theorem constExternal_keepsNonce (gas : Except Error Nat) (effectErr : Option Error)
    (addr : Address) : (constExternal gas effectErr).keepsNonce addr := by
  intro p ctx act sm
  cases act with
  | SetReward rt amount =>
    by_cases h : rt = BlockReward <;> simp [External.effect, constExternal, h]
  | DepositToRewardingFund amount => rfl
  | ClaimFromRewardingFund amount => rfl
  | GrantReward rt =>
    by_cases h : rt = BlockReward <;> simp [External.effect, constExternal, h]
  | Other tag => rfl

/-- C8 (as stated, refuted): one deposit with the declared nonce 5 by a caller whose stored
nonce is 10, with account load and store succeeding and an effect that leaves the ledger
alone.  After the sequence the stored nonce is 10, not the maximum declared nonce 5. -/
theorem stored_nonce_above_declared :
    staleSteps ≠ [] ∧
    (∀ s ∈ staleSteps, s.1.Caller = "io1alice" ∧ s.2.recognized = true) ∧
    List.Chain' (· ≤ ·) (staleSteps.map fun s => s.1.Nonce) ∧
    sampleProtocol.finalisesAll (constExternal (.ok 1) none)
      (ledgerWith "io1alice" { Nonce := 10, Balance := 0 }) staleSteps ∧
    nonceAfter (sampleProtocol.HandleAll (constExternal (.ok 1) none)
      (ledgerWith "io1alice" { Nonce := 10, Balance := 0 }) staleSteps) "io1alice" = some 10 ∧
    maxDeclaredNonce staleSteps = 5 := by
  refine ⟨by decide, ?_, ?_, ⟨rfl, trivial⟩, rfl, rfl⟩
  · intro s hs
    simp only [staleSteps, List.mem_singleton] at hs
    subst hs
    exact ⟨rfl, rfl⟩
  · simp [staleSteps]

/-- C8 (amended): for every address and every sequence of recognised actions submitted by
that address, processed in order by `Handle` with account load and store succeeding at
every nonce finalisation and with effects that leave the stored nonce of the address
unchanged, the nonce stored for the address after the sequence is the larger of the nonce
stored before the sequence and the maximum declared nonce; it therefore equals the maximum
declared nonce whenever the nonce stored before does not exceed it; and the stored nonce
never decreases from one point of the sequence to a later one. -/
theorem HandleAll_stored_nonce (ext : External) (p : Protocol) (addr : Address)
    (sm : StateManager) (steps : List (RunActionsCtx × Action))
    (hcaller : ∀ s ∈ steps, s.1.Caller = addr)
    (hrec : ∀ s ∈ steps, s.2.recognized = true)
    (hfin : p.finalisesAll ext sm steps)
    (hkeep : ext.keepsNonce addr) :
    ∃ smF, p.HandleAll ext sm steps = .ok smF ∧
      smF.storedNonce addr = max (sm.storedNonce addr) (maxDeclaredNonce steps) ∧
      (sm.storedNonce addr ≤ maxDeclaredNonce steps →
        smF.storedNonce addr = maxDeclaredNonce steps) ∧
      ∀ pre mid post, steps = pre ++ mid ++ post →
        ∃ s1 s2, p.HandleAll ext sm pre = .ok s1 ∧ p.HandleAll ext sm (pre ++ mid) = .ok s2 ∧
          s1.storedNonce addr ≤ s2.storedNonce addr := by
  obtain ⟨smF, hF, hFn⟩ := HandleAll_nonce ext p addr hkeep steps sm hcaller hrec hfin
  refine ⟨smF, hF, hFn, fun hle => by rw [hFn, max_eq_right hle], ?_⟩
  intro pre mid post hsplit
  subst hsplit
  have hmem1 : ∀ s ∈ pre, s ∈ pre ++ mid ++ post := fun s hs =>
    List.mem_append_left _ (List.mem_append_left _ hs)
  have hmem2 : ∀ s ∈ mid, s ∈ pre ++ mid ++ post := fun s hs =>
    List.mem_append_left _ (List.mem_append_right _ hs)
  have hfinPM := (finalisesAll_append ext p (pre ++ mid) post sm hfin).1
  obtain ⟨hfinP, hfinM⟩ := finalisesAll_append ext p pre mid sm hfinPM
  obtain ⟨s1, h1, -⟩ := HandleAll_nonce ext p addr hkeep pre sm
    (fun s hs => hcaller s (hmem1 s hs)) (fun s hs => hrec s (hmem1 s hs)) hfinP
  obtain ⟨s2, h2, h2n⟩ := HandleAll_nonce ext p addr hkeep mid s1
    (fun s hs => hcaller s (hmem2 s hs)) (fun s hs => hrec s (hmem2 s hs)) (hfinM s1 h1)
  refine ⟨s1, s2, h1, ?_, ?_⟩
  · rw [HandleAll_append ext p pre mid sm s1 h1]
    exact h2
  · rw [h2n]
    exact le_max_left _ _

/-- Witness of C8 (amended): four actions with declared nonces 1, 2, 2, 4 whose effects all
fail, on an empty ledger. -/
theorem HandleAll_stored_nonce_witness :
    ∃ smF, sampleProtocol.HandleAll (constExternal (.ok 1) (some "failed")) emptyStateManager
        sampleSteps = .ok smF ∧
      smF.storedNonce "io1alice" =
        max (emptyStateManager.storedNonce "io1alice") (maxDeclaredNonce sampleSteps) ∧
      (emptyStateManager.storedNonce "io1alice" ≤ maxDeclaredNonce sampleSteps →
        smF.storedNonce "io1alice" = maxDeclaredNonce sampleSteps) ∧
      ∀ pre mid post, sampleSteps = pre ++ mid ++ post →
        ∃ s1 s2, sampleProtocol.HandleAll (constExternal (.ok 1) (some "failed"))
            emptyStateManager pre = .ok s1 ∧
          sampleProtocol.HandleAll (constExternal (.ok 1) (some "failed"))
            emptyStateManager (pre ++ mid) = .ok s2 ∧
          s1.storedNonce "io1alice" ≤ s2.storedNonce "io1alice" :=
  HandleAll_stored_nonce (constExternal (.ok 1) (some "failed")) sampleProtocol "io1alice"
    emptyStateManager sampleSteps
    (by intro s hs; simp only [sampleSteps, List.mem_cons, List.mem_singleton,
          List.not_mem_nil, or_false] at hs; rcases hs with h | h | h | h <;> subst h <;> rfl)
    (by intro s hs; simp only [sampleSteps, List.mem_cons, List.mem_singleton,
          List.not_mem_nil, or_false] at hs; rcases hs with h | h | h | h <;> subst h <;> rfl)
    ⟨rfl, rfl, rfl, rfl, trivial⟩
    (constExternal_keepsNonce _ _ _)

end Rewarding

namespace GasStation

/-! ## Gas price suggestion and gas estimation -/

theorem getD_map_range_consecutive (f : Nat → Nat) (lo N i : Nat) (d : Nat) (hi : i < N) :
    ((List.range' lo N).map f).getD i d = f (lo + i) := by
  rw [List.getD_eq_getElem _ _ (by simpa using hi)]
  simp

theorem SuggestGasPrice_of_sorted_map (rank : Nat → Nat → Nat) (cfg : Config)
    (chain : List Block) (f : Nat → Nat) (lo N : Nat) (hN : 1 ≤ N)
    (hs : (userPrices (recentBlocks cfg.SuggestBlockWindow chain)).insertionSort (· ≤ ·) =
      (List.range' lo N).map f)
    (hidx : rank N cfg.Percentile < N) :
    SuggestGasPrice rank cfg chain = f (lo + rank N cfg.Percentile) := by
  unfold SuggestGasPrice
  simp only [hs]
  obtain ⟨M, rfl⟩ : ∃ M, N = M + 1 := ⟨N - 1, by omega⟩
  rw [List.range'_succ, List.map_cons]
  simp only [List.length_cons, List.length_map, List.length_range']
  rw [← List.map_cons, ← List.range'_succ]
  exact getD_map_range_consecutive f lo (M + 1) _ (f lo) hidx

theorem rankDown_60 (N : Nat) : rankDown N 60 = 6 * (N - 1) / 10 := by
  unfold rankDown
  omega

theorem rankNearest_60 (N : Nat) : rankNearest N 60 = (6 * (N - 1) + 5) / 10 := by
  unfold rankNearest
  omega

theorem AdmissibleRank.test_rank (rank : Nat → Nat → Nat) (hrank : AdmissibleRank rank) :
    rank 20 60 = 11 := by
  have h := hrank 20 60
  have hd : rankDown 20 60 = 11 := by decide
  have hn : rankNearest 20 60 = 11 := by decide
  rw [hd, hn] at h
  omega

theorem rankDown_admissible : AdmissibleRank rankDown := by
  intro len percentile
  refine ⟨le_refl _, ?_⟩
  unfold rankDown rankNearest
  omega

theorem rankNearest_admissible : AdmissibleRank rankNearest := by
  intro len percentile
  refine ⟨?_, le_refl _⟩
  unfold rankDown rankNearest
  omega

theorem floor_six_tenths (k : Nat) : ⌊(6 / 10 : ℚ) * (k : ℚ)⌋ = ((6 * k / 10 : ℕ) : ℤ) := by
  have h : (6 / 10 : ℚ) * (k : ℚ) = ((6 * k : ℕ) : ℚ) / ((10 : ℕ) : ℚ) := by
    push_cast
    ring
  rw [h, Rat.floor_natCast_div_natCast]
  norm_cast

theorem round_six_tenths (k : Nat) :
    round ((6 / 10 : ℚ) * (k : ℚ)) = (((6 * k + 5) / 10 : ℕ) : ℤ) := by
  have h : (6 / 10 : ℚ) * (k : ℚ) + 1 / 2 = ((6 * k + 5 : ℕ) : ℚ) / ((10 : ℕ) : ℚ) := by
    push_cast
    ring
  rw [round_eq, h, Rat.floor_natCast_div_natCast]
  norm_cast

theorem userPrices_userActionChain (unit : Nat) :
    userPrices (recentBlocks 20 (userActionChain unit)) =
      ((List.range' 20 20).map fun k => k * unit).reverse := rfl

theorem sorted_userActionChain (unit : Nat) :
    (userPrices (recentBlocks 20 (userActionChain unit))).insertionSort (· ≤ ·) =
      (List.range' 20 20).map fun k => k * unit := by
  rw [userPrices_userActionChain]
  refine List.eq_of_perm_of_sorted
    ((List.perm_insertionSort _ _).trans (List.reverse_perm _)) (List.sorted_insertionSort _ _) ?_
  exact (List.pairwise_le_range' 20 20).map _ (fun a b h => Nat.mul_le_mul_right unit h)

theorem SuggestGasPrice_userActionChain (rank : Nat → Nat → Nat) (hrank : AdmissibleRank rank)
    (unit defaultGas executionDataGas : Nat) :
    SuggestGasPrice rank (testConfig defaultGas executionDataGas) (userActionChain unit) =
      31 * unit := by
  have h11 : rank 20 60 = 11 := hrank.test_rank
  have hidx : rank 20 60 < 20 := by
    rw [h11]
    decide
  have hsum : 20 + rank 20 60 = 31 := by rw [h11]
  have h := SuggestGasPrice_of_sorted_map rank (testConfig defaultGas executionDataGas)
    (userActionChain unit) (fun k => k * unit) 20 20 (by decide) (sorted_userActionChain unit) hidx
  exact h.trans (congrArg (fun k => k * unit) hsum)

theorem SuggestGasPrice_no_user_action (rank : Nat → Nat → Nat) (cfg : Config)
    (chain : List Block)
    (hnone : userPrices (recentBlocks cfg.SuggestBlockWindow chain) = []) :
    SuggestGasPrice rank cfg chain = cfg.DefaultGas := by
  unfold SuggestGasPrice
  rw [hnone]
  rfl

theorem floor_interpolation (lo N : Nat) :
    ⌊(lo : ℚ) + (6 / 10 : ℚ) * (((lo + (N - 1) : ℕ) : ℚ) - (lo : ℚ))⌋₊ =
      lo + 6 * (N - 1) / 10 := by
  have h : (lo : ℚ) + (6 / 10 : ℚ) * (((lo + (N - 1) : ℕ) : ℚ) - (lo : ℚ)) =
      ((6 * (N - 1) : ℕ) : ℚ) / ((10 : ℕ) : ℚ) + ((lo : ℕ) : ℚ) := by
    push_cast
    ring
  rw [h, Nat.floor_add_nat (by positivity), Nat.floor_div_eq_div]
  omega

/-- C9: for every unsigned action, `EstimateGasForAction` returns without error the base
intrinsic gas plus the payload length times the gas per byte; it takes the configuration
and the action only, so no state is read or changed.  With the base intrinsic gas 10000 of
the test, the action without payload gives 10000 and the action with the ten-byte payload
`"1234567890"` gives `10000 + 10 * executionDataGas`. -/
theorem EstimateGasForAction_eq (cfg : Config) (act : UnsignedAction)
    (defaultGas executionDataGas : Nat) :
    EstimateGasForAction cfg act =
        .ok (cfg.BaseIntrinsicGas + act.Payload.length * cfg.PerByteGas) ∧
      EstimateGasForAction (testConfig defaultGas executionDataGas) getAction = .ok 10000 ∧
      EstimateGasForAction (testConfig defaultGas executionDataGas) getActionWithPayload =
        .ok (10000 + 10 * executionDataGas) := by
  refine ⟨rfl, ?_, rfl⟩
  simp [EstimateGasForAction, testConfig, getAction]

/-- C10 (as stated, refuted): a window whose user actions declare the prices 20 and 21, two
consecutive integers starting at 20.  The two values the claim equates differ there:
`lo + round (0.6 * (N - 1))` is 21 and `⌊min + 0.6 * (max - min)⌋` is 20, so no rank rule
makes `SuggestGasPrice` return both; the rounded-down rule returns 20, the
rounded-to-nearest rule returns 21, and both rules are admissible. -/
theorem two_prices_formulas_disagree :
    (userPrices (recentBlocks (testConfig 1 100).SuggestBlockWindow twoPriceChain)).insertionSort
        (· ≤ ·) = List.range' 20 2 ∧
      (20 : ℤ) + round ((6 / 10 : ℚ) * ((2 - 1 : ℕ) : ℚ)) = 21 ∧
      ⌊((20 : ℕ) : ℚ) + (6 / 10 : ℚ) * (((20 + (2 - 1) : ℕ) : ℚ) - ((20 : ℕ) : ℚ))⌋₊ = 20 ∧
      (¬ ∃ rank : Nat → Nat → Nat,
        ((SuggestGasPrice rank (testConfig 1 100) twoPriceChain : ℕ) : ℤ) =
            (20 : ℤ) + round ((6 / 10 : ℚ) * ((2 - 1 : ℕ) : ℚ)) ∧
          SuggestGasPrice rank (testConfig 1 100) twoPriceChain =
            ⌊((20 : ℕ) : ℚ) + (6 / 10 : ℚ) * (((20 + (2 - 1) : ℕ) : ℚ) - ((20 : ℕ) : ℚ))⌋₊) ∧
      SuggestGasPrice rankDown (testConfig 1 100) twoPriceChain = 20 ∧
      SuggestGasPrice rankNearest (testConfig 1 100) twoPriceChain = 21 ∧
      AdmissibleRank rankDown ∧ AdmissibleRank rankNearest := by
  have hround : (20 : ℤ) + round ((6 / 10 : ℚ) * ((2 - 1 : ℕ) : ℚ)) = 21 := by
    rw [round_six_tenths]
    decide
  have hfloor :
      ⌊((20 : ℕ) : ℚ) + (6 / 10 : ℚ) * (((20 + (2 - 1) : ℕ) : ℚ) - ((20 : ℕ) : ℚ))⌋₊ = 20 := by
    rw [floor_interpolation]
  refine ⟨by decide, hround, hfloor, ?_, by decide, by decide, rankDown_admissible,
    rankNearest_admissible⟩
  rintro ⟨rank, h1, h2⟩
  rw [hround, h2, hfloor] at h1
  exact absurd h1 (by decide)

/-- C10 (amended): for every window of recent blocks whose user-submitted actions declare
gas prices that, sorted ascending, are `N ≥ 1` consecutive integers starting at `lo`, and
for which `round (0.6 * (N - 1))` equals `⌊0.6 * (N - 1)⌋`, `SuggestGasPrice` with percentile
60 returns `lo + round (0.6 * (N - 1))`, which is also `⌊min + 0.6 * (max - min)⌋` of that
population (`min = lo`, `max = lo + (N - 1)`), under every admissible rank rule; for the
window of the test, twenty prices 20 to 39 in a unit, it returns 31 units; and when the
window holds no user action `SuggestGasPrice` returns the configured default gas price. -/
theorem SuggestGasPrice_consecutive (rank : Nat → Nat → Nat) (cfg : Config)
    (chain : List Block) (lo N : Nat)
    (hrank : AdmissibleRank rank) (hN : 1 ≤ N) (hp : cfg.Percentile = 60)
    (hs : (userPrices (recentBlocks cfg.SuggestBlockWindow chain)).insertionSort (· ≤ ·) =
      List.range' lo N)
    (hagree : round ((6 / 10 : ℚ) * ((N - 1 : ℕ) : ℚ)) = ⌊(6 / 10 : ℚ) * ((N - 1 : ℕ) : ℚ)⌋) :
    ((SuggestGasPrice rank cfg chain : ℕ) : ℤ) =
        (lo : ℤ) + round ((6 / 10 : ℚ) * ((N - 1 : ℕ) : ℚ)) ∧
      SuggestGasPrice rank cfg chain =
        ⌊(lo : ℚ) + (6 / 10 : ℚ) * (((lo + (N - 1) : ℕ) : ℚ) - (lo : ℚ))⌋₊ ∧
      (∀ unit defaultGas executionDataGas,
        SuggestGasPrice rank (testConfig defaultGas executionDataGas) (userActionChain unit) =
          31 * unit) ∧
      (∀ (cfg1 : Config) (chain1 : List Block),
        userPrices (recentBlocks cfg1.SuggestBlockWindow chain1) = [] →
          SuggestGasPrice rank cfg1 chain1 = cfg1.DefaultGas) ∧
      (∀ defaultGas executionDataGas,
        SuggestGasPrice rank (testConfig defaultGas executionDataGas) systemActionChain =
          defaultGas) := by
  have hnat : (6 * (N - 1) + 5) / 10 = 6 * (N - 1) / 10 := by
    rw [round_six_tenths, floor_six_tenths] at hagree
    exact_mod_cast hagree
  have hr : rank N 60 = 6 * (N - 1) / 10 := by
    have h := hrank N 60
    rw [rankDown_60, rankNearest_60, hnat] at h
    omega
  have hmain : SuggestGasPrice rank cfg chain = lo + 6 * (N - 1) / 10 := by
    have hidx : rank N cfg.Percentile < N := by
      rw [hp, hr]
      omega
    rw [SuggestGasPrice_of_sorted_map rank cfg chain id lo N hN (by rw [hs, List.map_id]) hidx,
      hp, hr]
    rfl
  refine ⟨?_, ?_, SuggestGasPrice_userActionChain rank hrank,
    SuggestGasPrice_no_user_action rank, ?_⟩
  · rw [hmain, hagree, floor_six_tenths]
    push_cast
    rfl
  · rw [hmain, floor_interpolation]
  · intro defaultGas executionDataGas
    exact SuggestGasPrice_no_user_action rank _ _ rfl

/-- Witness of C10 (amended): the window with the three prices 20, 21 and 22 under the
rounded-to-nearest rank rule. -/
theorem SuggestGasPrice_consecutive_witness :
    ((SuggestGasPrice rankNearest (testConfig 1 100) threePriceChain : ℕ) : ℤ) =
        ((20 : ℕ) : ℤ) + round ((6 / 10 : ℚ) * ((3 - 1 : ℕ) : ℚ)) ∧
      SuggestGasPrice rankNearest (testConfig 1 100) threePriceChain =
        ⌊((20 : ℕ) : ℚ) + (6 / 10 : ℚ) * (((20 + (3 - 1) : ℕ) : ℚ) - ((20 : ℕ) : ℚ))⌋₊ ∧
      (∀ unit defaultGas executionDataGas,
        SuggestGasPrice rankNearest (testConfig defaultGas executionDataGas)
          (userActionChain unit) = 31 * unit) ∧
      (∀ (cfg1 : Config) (chain1 : List Block),
        userPrices (recentBlocks cfg1.SuggestBlockWindow chain1) = [] →
          SuggestGasPrice rankNearest cfg1 chain1 = cfg1.DefaultGas) ∧
      (∀ defaultGas executionDataGas,
        SuggestGasPrice rankNearest (testConfig defaultGas executionDataGas) systemActionChain =
          defaultGas) :=
  SuggestGasPrice_consecutive rankNearest (testConfig 1 100) threePriceChain 20 3
    rankNearest_admissible (by decide) rfl (by decide)
    (by rw [round_six_tenths, floor_six_tenths])

end GasStation
